import Mathlib

/-!
Verification of the PSD reading utilities (`pycbc/psd/read.py`).

The Python module is embedded shallowly over exact rationals:
floating-point frequencies and PSD values become `ℚ`; PSD bins that the
code sets to `numpy.inf` become `⊤ : WithTop ℚ`; Python exceptions become
`Except` errors.  Python and numpy indexing conventions (negative
wrap-around indices, slice clamping, `numpy.searchsorted`, slice
assignment, truncating `int()`) are modelled by dedicated helpers below.

The natural-log / exp pair used by the log-log interpolation of
`from_numpy_arrays` is not rational-valued, so the embedding is
parametrised by an abstract pair `lg ex : ℚ → ℚ`; the theorems that need
them assume exactly the properties of `log`/`exp` they use (strict
monotonicity on positives, `ex ∘ lg = id` on positives), and hold for any
such pair.
-/

/-- Python `int(q)`: truncation of a rational toward zero. -/
def pyInt (q : ℚ) : ℤ := if 0 ≤ q then ⌊q⌋ else -⌊-q⌋

/-- Python / numpy single-element indexing `a[i]` with a possibly negative
index: a negative index wraps around once; anything out of range is an
`IndexError`, modelled as `none`. -/
def pyGet (a : List ℚ) (i : ℤ) : Option ℚ :=
  if 0 ≤ i then a[i.toNat]?
  else if (-i).toNat ≤ a.length then a[a.length - (-i).toNat]? else none

/-- Number of elements dropped by the Python slice `a[i:]` on a list of
length `n` (negative indices count from the end and clamp at zero). -/
def pyDropCount (n : ℕ) (i : ℤ) : ℕ :=
  if 0 ≤ i then i.toNat else n - min n (-i).toNat

/-- numpy `searchsorted(a, v)` with the default side `left`: for a sorted
list this is the number of elements strictly below `v`. -/
def searchsorted (a : List ℚ) (v : ℚ) : ℕ :=
  a.countP (fun x => decide (x < v))

/-- numpy slice assignment `l[s:] = vals` where `vals` has the broadcast
length `max (l.length - s) 0`. -/
def listSetFrom (l : List ℚ) (s : ℕ) (vals : List ℚ) : List ℚ :=
  l.take s ++ (vals ++ l.drop (s + vals.length))

/-- numpy `.min()` of a (nonempty) array. -/
def listMin : List ℚ → ℚ
  | [] => 0
  | h :: t => t.foldl min h

/-- numpy `.max()` of a (nonempty) array. -/
def listMax : List ℚ → ℚ
  | [] => 0
  | h :: t => t.foldl max h

/-- Core of `scipy.interpolate.interp1d` (linear kind) on a list of
`(x, y)` nodes that is already known to be sorted: find the first segment
whose right node is at or past `x` and interpolate linearly inside it;
past the last node the last `y` is returned (the `fill_value` clamp). -/
def interpPts : List (ℚ × ℚ) → ℚ → ℚ
  | [], _ => 0
  | [p], _ => p.2
  | p :: q :: rest, x =>
    if x ≤ q.1 then p.2 + (q.2 - p.2) * (x - p.1) / (q.1 - p.1)
    else interpPts (q :: rest) x

/-- `scipy.interpolate.interp1d(xs, ys, fill_value=(ys[0], ys[-1]),
bounds_error=False)` evaluated at `x`: queries below the first node clamp
to the first value, queries above the last clamp to the last value,
otherwise piecewise-linear interpolation. -/
def interp1d (xs ys : List ℚ) (x : ℚ) : ℚ :=
  match xs, ys with
  | x0 :: _, y0 :: _ => if x < x0 then y0 else interpPts (xs.zip ys) x
  | _, _ => 0

/-- Errors raised by `from_numpy_arrays`: the documented cannot-extrapolate
`ValueError`, Python `IndexError` from out-of-range indexing, and the
input-validation `ValueError` of `scipy.interpolate.interp1d` (it requires
two equal-length coordinate arrays of at least two entries). -/
inductive FNAErr where
  | lowFreqError : FNAErr
  | indexError : FNAErr
  | interpError : FNAErr
  deriving DecidableEq

/-- Result of `from_numpy_arrays`: a `FrequencySeries` value, i.e. a
frequency spacing together with the data buffer. -/
structure FNAOut where
  delta_f : ℚ
  data : List ℚ
  deriving DecidableEq

/-- Line 57: `kmin = int(low_freq_cutoff / delta_f)` (`toNat` is harmless:
the modelled domain has `low_freq_cutoff ≥ 0` and `delta_f > 0`). -/
def fnaKmin (delta_f low_freq_cutoff : ℚ) : ℕ :=
  (pyInt (low_freq_cutoff / delta_f)).toNat

/-- Line 58: `flow = kmin * delta_f`. -/
def fnaFlow (delta_f low_freq_cutoff : ℚ) : ℚ :=
  (fnaKmin delta_f low_freq_cutoff : ℚ) * delta_f

/-- Lines 60-61: the preliminary `data_start` index, a Python `int` that
can be `-1` when `searchsorted` returns `0`. -/
def fnaDS0 (freq_data : List ℚ) (delta_f low_freq_cutoff : ℚ) : ℤ :=
  if freq_data.headI = low_freq_cutoff then 0
  else (searchsorted freq_data (fnaFlow delta_f low_freq_cutoff) : ℤ) - 1

/-- Lines 60-65: the final `data_start` after the cutoff-bump check
`freq_data[data_start+1] == low_freq_cutoff`; that read can raise
`IndexError`. -/
def fnaDS (freq_data : List ℚ) (delta_f low_freq_cutoff : ℚ) : Except FNAErr ℤ :=
  match pyGet freq_data (fnaDS0 freq_data delta_f low_freq_cutoff + 1) with
  | none => .error .indexError
  | some fnext =>
    .ok (if fnext = low_freq_cutoff then fnaDS0 freq_data delta_f low_freq_cutoff + 1
         else fnaDS0 freq_data delta_f low_freq_cutoff)

/-- Lines 67-68: the retained tails `freq_data[data_start:]`,
`noise_data[data_start:]` (Python slices, so a negative `data_start`
counts from the end). -/
def fnaRetainedPair (freq_data noise_data : List ℚ) (delta_f low_freq_cutoff : ℚ) :
    Except FNAErr (List ℚ × List ℚ) :=
  (fnaDS freq_data delta_f low_freq_cutoff).map (fun ds =>
    (freq_data.drop (pyDropCount freq_data.length ds),
     noise_data.drop (pyDropCount noise_data.length ds)))

/-- Lines 78-86: `psd = zeros(length)` followed by
`psd[kmin:] = exp(interp1d(log fr, log no)(log (arange(kmin, length) * delta_f)))`. -/
def fnaPsd (lg ex : ℚ → ℚ) (fr no : List ℚ) (length : ℕ) (delta_f low_freq_cutoff : ℚ) :
    List ℚ :=
  listSetFrom (List.replicate length 0) (fnaKmin delta_f low_freq_cutoff)
    ((List.range' (fnaKmin delta_f low_freq_cutoff)
        (length - fnaKmin delta_f low_freq_cutoff)).map
      (fun k : ℕ => ex (interp1d (fr.map lg) (no.map lg) (lg ((k : ℚ) * delta_f)))))

/-- Lines 30-88, `from_numpy_arrays(freq_data, noise_data, length, delta_f,
low_freq_cutoff)`, parametrised by the log/exp pair `lg`, `ex`. -/
def from_numpy_arrays (lg ex : ℚ → ℚ) (freq_data noise_data : List ℚ)
    (length : ℕ) (delta_f low_freq_cutoff : ℚ) : Except FNAErr FNAOut :=
  match freq_data.head? with
  | none => .error .indexError
  | some f0 =>
    if low_freq_cutoff < f0 then .error .lowFreqError
    else
      match fnaRetainedPair freq_data noise_data delta_f low_freq_cutoff with
      | .error e => .error e
      | .ok (fr, no) =>
        match fr.getLast? with
        | none => .error .indexError
        | some fmax =>
          let len := if fmax < ((length : ℚ) - 1) * delta_f
                     then (pyInt (fmax / delta_f + 1)).toNat else length
          if fr.length < 2 ∨ fr.length ≠ no.length then .error .interpError
          else .ok ⟨delta_f, fnaPsd lg ex fr no len delta_f low_freq_cutoff⟩

/-- A `FrequencySeries` whose bins may hold `numpy.inf` (`⊤`). -/
structure FSeries where
  delta_f : ℚ
  data : List (WithTop ℚ)
  deriving DecidableEq

/-- Shorthand embedding of a finite PSD value into a possibly-infinite bin. -/
def wq (q : ℚ) : WithTop ℚ := (q : WithTop ℚ)

/-- Lines 263-271 of `get_psd`: reconcile the series against the
configured target length, padding with `+inf` or truncating. -/
def lenRecon (length : Option ℕ) (psd : FSeries) : FSeries :=
  match length with
  | none => psd
  | some L =>
    if L = psd.data.length then psd
    else if psd.data.length < L then
      ⟨psd.delta_f, psd.data ++ List.replicate (L - psd.data.length) ⊤⟩
    else
      ⟨psd.delta_f, psd.data.take L⟩

/-- Lines 272-275 of `get_psd`: if the configured cutoff is below the
file's recorded cutoff, overwrite all bins below
`k = int(file_f_low / delta_f)` with `+inf` (`psd[0:k] = inf`, a Python
slice assignment, clamps at the data length). -/
def lowMask (f_low : Option ℚ) (file_f_low : ℚ) (psd : FSeries) : FSeries :=
  match f_low with
  | none => psd
  | some fl =>
    if fl < file_f_low then
      ⟨psd.delta_f,
        List.replicate (min (pyInt (file_f_low / psd.delta_f)).toNat psd.data.length) ⊤ ++
          psd.data.drop (pyInt (file_f_low / psd.delta_f)).toNat⟩
    else psd

/-- State of a `PrecomputedTimeVaryingPSD` selector.  File access
(`load_frequencyseries`), generic resampling (`pycbc.psd.interpolate`) and
`inverse_spectrum_truncation` are opaque collaborators, so they are fields
of the state; `psd_inverse_length` keeps only its Python truthiness. -/
structure PrecomputedTimeVaryingPSD where
  f_low : Option ℚ
  length : Option ℕ
  start_times : List ℚ
  end_times : List ℚ
  file_f_low : ℚ
  psd_inverse_length : Bool
  load : ℕ → FSeries
  interpolate : FSeries → ℚ → FSeries
  trunc : FSeries → FSeries

namespace PrecomputedTimeVaryingPSD

/-- Field `self.begin = self.start_times.min()`. -/
def beginTime (s : PrecomputedTimeVaryingPSD) : ℚ := listMin s.start_times

/-- Field `self.end = self.end_times.max()`. -/
def endTime (s : PrecomputedTimeVaryingPSD) : ℚ := listMax s.end_times

/-- Lines 258-277, `get_psd(index, delta_f)`: load, optionally resample to
an overridden `delta_f`, reconcile the length, mask below the file cutoff. -/
def get_psd (s : PrecomputedTimeVaryingPSD) (index : ℕ) (delta_f : Option ℚ) : FSeries :=
  let loaded := s.load index
  let psd := match delta_f with
    | none => loaded
    | some df => if loaded.delta_f = df then loaded else s.interpolate loaded df
  lowMask s.f_low s.file_f_low (lenRecon s.length psd)

end PrecomputedTimeVaryingPSD

/-- A GPS time segment `[a, b]` (`ligo.segments.segment` normalises its
endpoints so that `a ≤ b`). -/
structure Seg where
  a : ℚ
  b : ℚ
  deriving DecidableEq

/-- `ligo.segments.segment.intersects`: strictly positive-length overlap. -/
def Seg.intersects (s t : Seg) : Prop := t.a < s.b ∧ s.a < t.b

instance (s t : Seg) : Decidable (s.intersects t) := by
  unfold Seg.intersects
  exact inferInstance

/-- `abs(s & t)`: the length of the intersection of two segments (only
meaningful when they intersect, which is how the code uses it). -/
def Seg.olap (s t : Seg) : ℚ := min s.b t.b - max s.a t.a

/-- Errors of `assosiate_psd_to_inspiral_segment`: the out-of-range
`ValueError` (whose message carries the store's valid range, kept here as
the payload), the `numpy.argpartition` kth-out-of-bounds error, and the
no-intersecting-PSD `ValueError`. -/
inductive SelErr where
  | rangeError : ℚ → ℚ → SelErr
  | argpartError : SelErr
  | noPsdError : SelErr

namespace PrecomputedTimeVaryingPSD

/-- Candidate interval number `i` of the store,
`segment(start_times[i], end_times[i])`. -/
def candSeg (s : PrecomputedTimeVaryingPSD) (i : ℕ) : Seg :=
  ⟨s.start_times.getD i 0, s.end_times.getD i 0⟩

/-- Lines 249-254: the optional `inverse_spectrum_truncation`
post-processing of the winning PSD. -/
def post (s : PrecomputedTimeVaryingPSD) (p : FSeries) : FSeries :=
  if s.psd_inverse_length then s.trunc p else p

/-- Lines 230-256: given the two candidate indices produced by the
argpartition, pick the best PSD by maximal overlap (strict `<` against the
running value, which starts at `0`). -/
def selectBest (s : PrecomputedTimeVaryingPSD) (seg : Seg) (delta_f : Option ℚ)
    (i0 i1 : ℕ) : Except SelErr FSeries :=
  let nearest := s.candSeg i0
  let nextNearest := s.candSeg i1
  let ov1 : ℚ := if seg.intersects nearest then Seg.olap nearest seg else 0
  let b1 : Option FSeries :=
    if seg.intersects nearest then some (s.get_psd i0 delta_f) else none
  let b2 : Option FSeries :=
    if seg.intersects nextNearest then
      if ov1 < Seg.olap nextNearest seg then some (s.get_psd i1 delta_f) else b1
    else b1
  match b2 with
  | none => .error .noPsdError
  | some p => .ok (s.post p)

/-- Lines 218-256, `assosiate_psd_to_inspiral_segment(inp_seg, delta_f)`.
`numpy.argpartition(|start_times - inp_seg[0]|, 2)` demands `kth = 2 <`
array length (documented numpy behaviour, a `ValueError` otherwise) and
returns its first two positions in an unspecified order, so the selector
is parametrised by that pair `i0, i1`. -/
def assosiate_psd_to_inspiral_segment (s : PrecomputedTimeVaryingPSD) (inp_seg : Seg)
    (delta_f : Option ℚ) (i0 i1 : ℕ) : Except SelErr FSeries :=
  if s.endTime < inp_seg.a ∨ inp_seg.b < s.beginTime then
    .error (.rangeError s.beginTime s.endTime)
  else if s.start_times.length < 3 then .error .argpartError
  else s.selectBest inp_seg delta_f i0 i1

end PrecomputedTimeVaryingPSD

/-- The property that `i0`, `i1` are (indices of) the two entries of `st`
nearest to `t` by absolute start-time distance — what
`numpy.argpartition(abs(st - t), 2)[:2]` finds. -/
def Nearest2 (st : List ℚ) (t : ℚ) (i0 i1 : ℕ) : Prop :=
  i0 < st.length ∧ i1 < st.length ∧ i0 ≠ i1 ∧
    ∀ j, j < st.length → j ≠ i0 → j ≠ i1 →
      |st.getD i0 0 - t| ≤ |st.getD j 0 - t| ∧ |st.getD i1 0 - t| ≤ |st.getD j 0 - t|

namespace PrecomputedTimeVaryingPSD

lemma selectBest_ne_rangeError (s : PrecomputedTimeVaryingPSD) (seg : Seg)
    (delta_f : Option ℚ) (i0 i1 : ℕ) (lo hi : ℚ) :
    s.selectBest seg delta_f i0 i1 ≠ .error (.rangeError lo hi) := by
  unfold selectBest
  dsimp only
  split <;> simp

/-- C8: the selector raises the range `ValueError` (whose message carries
the store's valid range `[begin, end]`) exactly when the requested segment
ends strictly before the earliest start time or begins strictly after the
latest end time. -/
theorem assoc_range_error_iff (s : PrecomputedTimeVaryingPSD) (seg : Seg)
    (delta_f : Option ℚ) (i0 i1 : ℕ) :
    s.assosiate_psd_to_inspiral_segment seg delta_f i0 i1 =
        .error (.rangeError s.beginTime s.endTime) ↔
      (s.endTime < seg.a ∨ seg.b < s.beginTime) := by
  unfold assosiate_psd_to_inspiral_segment
  by_cases h : s.endTime < seg.a ∨ seg.b < s.beginTime
  · simp [h]
  · simp only [h, if_false, iff_false]
    by_cases h3 : s.start_times.length < 3
    · simp [h3]
    · simp only [h3, if_false]
      exact selectBest_ne_rangeError s seg delta_f i0 i1 _ _

/-- C10: on a store with fewer than three `(start_time, end_time)`
entries, every call whose segment passes the coverage check fails with the
out-of-bounds error of `numpy.argpartition(..., 2)` (kth = 2 demands at
least 3 elements), so the selector is only usable on stores with at least
three entries. -/
theorem assoc_argpart_oob (s : PrecomputedTimeVaryingPSD) (seg : Seg)
    (delta_f : Option ℚ) (i0 i1 : ℕ)
    (hn : s.start_times.length < 3)
    (hin : ¬(s.endTime < seg.a ∨ seg.b < s.beginTime)) :
    s.assosiate_psd_to_inspiral_segment seg delta_f i0 i1 = .error .argpartError := by
  unfold assosiate_psd_to_inspiral_segment
  simp [hin, hn]

/-- Witness for C10: a two-entry store covering `[0, 200]` and the inner
segment `[50, 150]` still fail. -/
theorem assoc_argpart_oob_witness :
    PrecomputedTimeVaryingPSD.assosiate_psd_to_inspiral_segment
        ⟨none, none, [0, 100], [100, 200], 0, false, fun _ => ⟨1, []⟩,
          fun p _ => p, id⟩ ⟨50, 150⟩ none 0 1 = .error .argpartError := by
  apply assoc_argpart_oob
  · norm_num
  · norm_num [endTime, beginTime, listMin, listMax]

end PrecomputedTimeVaryingPSD

lemma lowMask_of_not_below (f_low : Option ℚ) (file_f_low : ℚ) (psd : FSeries)
    (h : ∀ fl, f_low = some fl → file_f_low ≤ fl) :
    lowMask f_low file_f_low psd = psd := by
  unfold lowMask
  cases f_low with
  | none => rfl
  | some fl => exact if_neg (not_lt.mpr (h fl rfl))

lemma lowMask_some_lt (fl file_f_low : ℚ) (psd : FSeries) (h : fl < file_f_low) :
    lowMask (some fl) file_f_low psd =
      ⟨psd.delta_f,
        List.replicate (min (pyInt (file_f_low / psd.delta_f)).toNat psd.data.length) ⊤ ++
          psd.data.drop (pyInt (file_f_low / psd.delta_f)).toNat⟩ := by
  unfold lowMask
  exact if_pos h

namespace PrecomputedTimeVaryingPSD

lemma lenRecon_delta_f (length : Option ℕ) (psd : FSeries) :
    (lenRecon length psd).delta_f = psd.delta_f := by
  cases length with
  | none => rfl
  | some L =>
    unfold lenRecon
    dsimp only
    split
    · rfl
    · split <;> rfl

/-- C7: with a configured cutoff strictly below the store's recorded
cutoff, every existing bin of the conditioned series with index below
`floor(file_f_low / delta_f)` (the `delta_f` of the length-reconciled
series) is `+inf`; with a configured cutoff at or above the store's, the
masking step is skipped and `get_psd` returns the length-reconciled series
unchanged. -/
theorem get_psd_low_mask (s : PrecomputedTimeVaryingPSD) (index : ℕ) (fl : ℚ)
    (out : FSeries) (hfl : s.f_low = some fl)
    (hfile : 0 ≤ s.file_f_low) (hdf : 0 < (s.load index).delta_f)
    (hout : out = s.get_psd index none) :
    (fl < s.file_f_low →
      ∀ j, j < (⌊s.file_f_low / (lenRecon s.length (s.load index)).delta_f⌋).toNat →
        ∀ v, out.data[j]? = some v → v = ⊤) ∧
    (s.file_f_low ≤ fl → out = lenRecon s.length (s.load index)) := by
  have hre : s.get_psd index none =
      lowMask (some fl) s.file_f_low (lenRecon s.length (s.load index)) := by
    unfold get_psd
    rw [hfl]
  have hpi : pyInt (s.file_f_low / (lenRecon s.length (s.load index)).delta_f) =
      ⌊s.file_f_low / (lenRecon s.length (s.load index)).delta_f⌋ := by
    unfold pyInt
    rw [if_pos (div_nonneg hfile (by rw [lenRecon_delta_f]; exact hdf.le))]
  subst hout
  rw [hre]
  constructor
  · intro hlt j hj v hv
    rw [← hpi] at hj
    rw [lowMask_some_lt _ _ _ hlt] at hv
    dsimp only at hv
    by_cases hjr :
        j < min (pyInt (s.file_f_low / (lenRecon s.length (s.load index)).delta_f)).toNat
            (lenRecon s.length (s.load index)).data.length
    · rw [List.getElem?_append_left (by rw [List.length_replicate]; exact hjr)] at hv
      simp only [List.getElem?_replicate, if_pos hjr] at hv
      exact (Option.some_inj.mp hv).symm
    · push_neg at hjr
      have hlen : (lenRecon s.length (s.load index)).data.length ≤ j := by omega
      rw [List.getElem?_append_right (by rw [List.length_replicate]; omega)] at hv
      rw [List.getElem?_eq_none (by rw [List.length_drop]; omega)] at hv
      exact absurd hv (by simp)
  · intro hge
    exact lowMask_of_not_below _ _ _ (fun x hx => by
      rw [← Option.some_inj.mp hx]
      exact hge)

end PrecomputedTimeVaryingPSD

/-- Witness for C7: a store cutoff of `10` Hz against a configured cutoff
of `0` Hz masks both bins of a two-bin loaded PSD. -/
theorem get_psd_low_mask_witness :
    ((0 : ℚ) < 10 →
      ∀ j, j < (⌊(10 : ℚ) /
          (lenRecon none (FSeries.mk 1 [wq 5, wq 5])).delta_f⌋).toNat →
        ∀ v, (FSeries.mk 1 [⊤, ⊤]).data[j]? = some v → v = ⊤) ∧
    ((10 : ℚ) ≤ 0 → FSeries.mk 1 [⊤, ⊤] = lenRecon none (FSeries.mk 1 [wq 5, wq 5])) := by
  apply PrecomputedTimeVaryingPSD.get_psd_low_mask
      ⟨some 0, none, [0], [10], 10, false, fun _ => ⟨1, [wq 5, wq 5]⟩, fun p _ => p, id⟩
      0 0 (FSeries.mk 1 [⊤, ⊤]) rfl (by norm_num) (by norm_num)
  norm_num [PrecomputedTimeVaryingPSD.get_psd, lenRecon, lowMask, pyInt, wq]
  rfl

/-- Counterexample for C6: target length `4` exceeds the loaded length
`2`, yet because the configured cutoff (`0`) is below the store's cutoff
(`10`) the subsequent masking step overwrites bin `0` with `+inf`, so the
returned series does not keep the loaded data in its first two bins. -/
theorem get_psd_extend_cex :
    (2 : ℕ) < 4 ∧
    (FSeries.mk 1 [wq 5, wq 5]).data[0]? = some (wq 5) ∧
    (PrecomputedTimeVaryingPSD.get_psd
        ⟨some 0, some 4, [0], [10], 10, false, fun _ => ⟨1, [wq 5, wq 5]⟩,
          fun p _ => p, id⟩ 0 none).data[0]? = some ⊤ ∧
    wq 5 ≠ (⊤ : WithTop ℚ) := by
  refine ⟨by norm_num, by norm_num [wq], ?_, by simp [wq]⟩
  norm_num [PrecomputedTimeVaryingPSD.get_psd, lenRecon, lowMask, pyInt, wq]
  rfl

namespace PrecomputedTimeVaryingPSD

/-- C6 (amended): in the absence of the low-frequency masking of lines
272-275 (no configured cutoff, or a configured cutoff at or above the
store's), a target length greater than the loaded length yields a series
of the target length whose tail bins are `+inf` and whose first bins are
the loaded data, and a smaller target length yields the first `length`
bins of the loaded data. -/
theorem get_psd_length_recon_amended (s : PrecomputedTimeVaryingPSD) (index : ℕ)
    (L : ℕ) (out : FSeries)
    (hL : s.length = some L)
    (hmask : ∀ fl, s.f_low = some fl → s.file_f_low ≤ fl)
    (hne : L ≠ (s.load index).data.length)
    (hout : out = s.get_psd index none) :
    ((s.load index).data.length < L →
      out.data.length = L ∧
      (∀ j, (s.load index).data.length ≤ j → j < L → out.data[j]? = some ⊤) ∧
      (∀ j, j < (s.load index).data.length → out.data[j]? = (s.load index).data[j]?)) ∧
    (L < (s.load index).data.length → out.data = (s.load index).data.take L) := by
  have hre : s.get_psd index none = lenRecon s.length (s.load index) := by
    unfold get_psd
    exact lowMask_of_not_below _ _ _ hmask
  subst hout
  rw [hre]
  rw [hL]
  unfold lenRecon
  dsimp only
  rw [if_neg hne]
  constructor
  · intro hlt
    rw [if_pos hlt]
    refine ⟨by simp; omega, ?_, ?_⟩
    · intro j hj hjL
      rw [List.getElem?_append_right hj]
      simp only [List.getElem?_replicate]
      rw [if_pos (by omega)]
    · intro j hj
      exact List.getElem?_append_left hj
  · intro hgt
    rw [if_neg (by omega)]

end PrecomputedTimeVaryingPSD

/-- Witness for C6 (amended): a two-bin loaded PSD extended to four bins
with no configured cutoff. -/
theorem get_psd_length_recon_amended_witness :
    ((FSeries.mk 1 [wq 5, wq 5]).data.length < 4 →
      (FSeries.mk 1 [wq 5, wq 5, ⊤, ⊤]).data.length = 4 ∧
      (∀ j, (FSeries.mk 1 [wq 5, wq 5]).data.length ≤ j → j < 4 →
        (FSeries.mk 1 [wq 5, wq 5, ⊤, ⊤]).data[j]? = some ⊤) ∧
      (∀ j, j < (FSeries.mk 1 [wq 5, wq 5]).data.length →
        (FSeries.mk 1 [wq 5, wq 5, ⊤, ⊤]).data[j]? = (FSeries.mk 1 [wq 5, wq 5]).data[j]?)) ∧
    (4 < (FSeries.mk 1 [wq 5, wq 5]).data.length →
      (FSeries.mk 1 [wq 5, wq 5, ⊤, ⊤]).data = (FSeries.mk 1 [wq 5, wq 5]).data.take 4) := by
  apply PrecomputedTimeVaryingPSD.get_psd_length_recon_amended
      ⟨none, some 4, [0], [10], 10, false, fun _ => ⟨1, [wq 5, wq 5]⟩, fun p _ => p, id⟩
      0 4 (FSeries.mk 1 [wq 5, wq 5, ⊤, ⊤]) rfl
  · intro fl hfl
    cases hfl
  · norm_num
  · norm_num [PrecomputedTimeVaryingPSD.get_psd, lenRecon, lowMask]
    rfl

lemma Seg.olap_pos_of_intersects (u t : Seg) (hu : u.a < u.b) (ht : t.a < t.b)
    (h : u.intersects t) : 0 < Seg.olap t u := by
  rcases h with ⟨h1, h2⟩
  unfold Seg.olap
  rw [sub_pos]
  rw [max_lt_iff, lt_min_iff, lt_min_iff]
  exact ⟨⟨ht, h1⟩, ⟨h2, hu⟩⟩

namespace PrecomputedTimeVaryingPSD

/-- C1: with the two candidates in hand (and a segment passing the range
and argpartition checks), the selector returns the post-processed PSD of
the candidate with strictly greater overlap; a tie keeps the first
candidate (strict `<` against a running maximum started at `0`); a
candidate that does not intersect never wins; if neither intersects, the
no-PSD `ValueError` is raised. -/
theorem assoc_max_overlap (s : PrecomputedTimeVaryingPSD) (seg : Seg)
    (delta_f : Option ℚ) (i0 i1 : ℕ)
    (hrange : ¬(s.endTime < seg.a ∨ seg.b < s.beginTime))
    (hn : 3 ≤ s.start_times.length)
    (hnear : Nearest2 s.start_times seg.a i0 i1)
    (hseg : seg.a < seg.b)
    (hc0 : (s.candSeg i0).a < (s.candSeg i0).b)
    (hc1 : (s.candSeg i1).a < (s.candSeg i1).b) :
    (seg.intersects (s.candSeg i0) → seg.intersects (s.candSeg i1) →
      Seg.olap (s.candSeg i1) seg ≤ Seg.olap (s.candSeg i0) seg →
      s.assosiate_psd_to_inspiral_segment seg delta_f i0 i1 =
        .ok (s.post (s.get_psd i0 delta_f))) ∧
    (seg.intersects (s.candSeg i0) → seg.intersects (s.candSeg i1) →
      Seg.olap (s.candSeg i0) seg < Seg.olap (s.candSeg i1) seg →
      s.assosiate_psd_to_inspiral_segment seg delta_f i0 i1 =
        .ok (s.post (s.get_psd i1 delta_f))) ∧
    (seg.intersects (s.candSeg i0) → ¬seg.intersects (s.candSeg i1) →
      s.assosiate_psd_to_inspiral_segment seg delta_f i0 i1 =
        .ok (s.post (s.get_psd i0 delta_f))) ∧
    (¬seg.intersects (s.candSeg i0) → seg.intersects (s.candSeg i1) →
      s.assosiate_psd_to_inspiral_segment seg delta_f i0 i1 =
        .ok (s.post (s.get_psd i1 delta_f))) ∧
    (¬seg.intersects (s.candSeg i0) → ¬seg.intersects (s.candSeg i1) →
      s.assosiate_psd_to_inspiral_segment seg delta_f i0 i1 =
        .error .noPsdError) := by
  have hassoc : s.assosiate_psd_to_inspiral_segment seg delta_f i0 i1 =
      s.selectBest seg delta_f i0 i1 := by
    unfold assosiate_psd_to_inspiral_segment
    rw [if_neg hrange, if_neg (by omega)]
  rw [hassoc]
  unfold selectBest
  dsimp only
  refine ⟨?_, ?_, ?_, ?_, ?_⟩
  · intro h0 h1 hle
    rw [if_pos h0, if_pos h0, if_pos h1, if_neg (not_lt.mpr hle)]
  · intro h0 h1 hlt
    rw [if_pos h0, if_pos h0, if_pos h1, if_pos hlt]
  · intro h0 h1
    rw [if_pos h0, if_pos h0, if_neg h1]
  · intro h0 h1
    rw [if_neg h0, if_neg h0, if_pos h1,
      if_pos (Seg.olap_pos_of_intersects seg (s.candSeg i1) hseg hc1 h1)]
  · intro h0 h1
    rw [if_neg h0, if_neg h0, if_neg h1]

end PrecomputedTimeVaryingPSD

/-- Witness for C1: the spec's own tie example — candidate intervals
`[0, 100]` and `[100, 200]` (plus a third far entry to satisfy the
argpartition requirement), query segment `[50, 150]`, both overlaps equal
to `50`; the first candidate is kept. -/
theorem assoc_max_overlap_witness :
    PrecomputedTimeVaryingPSD.assosiate_psd_to_inspiral_segment
        ⟨none, none, [0, 100, 1000], [100, 200, 1100], 0, false,
          fun _ => ⟨1, []⟩, fun p _ => p, id⟩ ⟨50, 150⟩ none 0 1 =
      .ok (⟨1, []⟩ : FSeries) := by
  have h := (PrecomputedTimeVaryingPSD.assoc_max_overlap
      ⟨none, none, [0, 100, 1000], [100, 200, 1100], 0, false,
        fun _ => ⟨1, []⟩, fun p _ => p, id⟩ ⟨50, 150⟩ none 0 1
      (by
        norm_num [PrecomputedTimeVaryingPSD.endTime, PrecomputedTimeVaryingPSD.beginTime,
          listMin, listMax])
      (by norm_num)
      (by
        refine ⟨by norm_num, by norm_num, by norm_num, ?_⟩
        intro j hj hj0 hj1
        simp only [List.length_cons, List.length_nil] at hj
        interval_cases j
        · exact absurd rfl hj0
        · exact absurd rfl hj1
        · norm_num [List.getD])
      (by norm_num)
      (by norm_num [PrecomputedTimeVaryingPSD.candSeg])
      (by norm_num [PrecomputedTimeVaryingPSD.candSeg])).1
  have h0 : Seg.intersects ⟨50, 150⟩ (PrecomputedTimeVaryingPSD.candSeg
      ⟨none, none, [0, 100, 1000], [100, 200, 1100], 0, false,
        fun _ => ⟨1, []⟩, fun p _ => p, id⟩ 0) := by
    norm_num [Seg.intersects, PrecomputedTimeVaryingPSD.candSeg]
  have h1 : Seg.intersects ⟨50, 150⟩ (PrecomputedTimeVaryingPSD.candSeg
      ⟨none, none, [0, 100, 1000], [100, 200, 1100], 0, false,
        fun _ => ⟨1, []⟩, fun p _ => p, id⟩ 1) := by
    norm_num [Seg.intersects, PrecomputedTimeVaryingPSD.candSeg]
  have hle := h h0 h1 (by
    norm_num [Seg.olap, PrecomputedTimeVaryingPSD.candSeg])
  exact hle

lemma searchsorted_lt (l : List ℚ) (v : ℚ) (hl : l.Pairwise (· < ·)) :
    ∀ j x, j < searchsorted l v → l[j]? = some x → x < v := by
  induction l with
  | nil =>
    intro j x hj _
    simp [searchsorted] at hj
  | cons h t ih =>
    rw [List.pairwise_cons] at hl
    intro j x hj hx
    unfold searchsorted at hj
    rw [List.countP_cons] at hj
    by_cases hh : h < v
    · cases j with
      | zero =>
        rw [List.getElem?_cons_zero] at hx
        exact (Option.some_inj.mp hx) ▸ hh
      | succ j =>
        rw [List.getElem?_cons_succ] at hx
        refine ih hl.2 j x ?_ hx
        simp only [hh, decide_True, if_true] at hj
        unfold searchsorted
        omega
    · have h0 : List.countP (fun x => decide (x < v)) t = 0 :=
        List.countP_eq_zero.mpr (fun y hy => by
          simp only [decide_eq_true_eq]
          exact not_lt.mpr (le_of_lt (lt_of_le_of_lt (not_lt.mp hh) (hl.1 y hy))))
      simp only [h0, hh, decide_False, if_false] at hj
      exact absurd hj (Nat.not_lt_zero j)

lemma searchsorted_le (l : List ℚ) (v : ℚ) (hl : l.Pairwise (· < ·)) :
    ∀ j x, searchsorted l v ≤ j → l[j]? = some x → v ≤ x := by
  induction l with
  | nil =>
    intro j x _ hx
    simp at hx
  | cons h t ih =>
    rw [List.pairwise_cons] at hl
    intro j x hj hx
    unfold searchsorted at hj
    rw [List.countP_cons] at hj
    by_cases hh : h < v
    · simp only [hh, decide_True, if_true] at hj
      cases j with
      | zero => omega
      | succ j =>
        rw [List.getElem?_cons_succ] at hx
        refine ih hl.2 j x (by unfold searchsorted; omega) hx
    · cases j with
      | zero =>
        rw [List.getElem?_cons_zero] at hx
        exact (Option.some_inj.mp hx) ▸ (not_lt.mp hh)
      | succ j =>
        rw [List.getElem?_cons_succ] at hx
        have hxm : x ∈ t := by
          rcases List.getElem?_eq_some.mp hx with ⟨hlt, hget⟩
          exact hget ▸ List.getElem_mem hlt
        exact le_of_lt (lt_of_le_of_lt (not_lt.mp hh) (hl.1 x hxm))

lemma searchsorted_lt_length (l : List ℚ) (v : ℚ) (hl : l.Pairwise (· < ·))
    (hne : l ≠ []) (hcov : v ≤ l.getLastD 0) :
    searchsorted l v < l.length := by
  rcases Nat.lt_or_ge (searchsorted l v) l.length with h | h
  · exact h
  · exfalso
    have hpos : 0 < l.length := List.length_pos.mpr hne
    have heq : searchsorted l v = l.length :=
      le_antisymm (List.countP_le_length _) h
    have hlast : l[l.length - 1]? = some (l.getLastD 0) := by
      rw [← List.getLast?_eq_getElem?, List.getLastD_eq_getLast?]
      cases l with
      | nil => exact absurd rfl hne
      | cons a t =>
        obtain ⟨x, hx⟩ := Option.isSome_iff_exists.mp
          ((@List.getLast?_isSome ℚ (a :: t)).mpr (by simp))
        rw [hx]
        rfl
    have hx := searchsorted_lt l v hl (l.length - 1) (l.getLastD 0) (by omega) hlast
    exact absurd hcov (not_le.mpr hx)

lemma fnaDS_head_eq (freq : List ℚ) (delta_f low : ℚ)
    (hsort : freq.Pairwise (· < ·)) (h2 : 2 ≤ freq.length) (hhead : freq.headI = low) :
    fnaDS freq delta_f low = .ok 0 := by
  unfold fnaDS fnaDS0
  rw [if_pos hhead]
  cases freq with
  | nil => simp at h2
  | cons f0 t =>
    cases t with
    | nil => simp at h2
    | cons f1 t2 =>
      have hp : pyGet (f0 :: f1 :: t2) (0 + 1) = some f1 := by
        unfold pyGet
        rw [if_pos (by norm_num)]
        norm_num
      rw [hp]
      dsimp only
      have hf0 : f0 = low := hhead
      rw [List.pairwise_cons] at hsort
      have hlt : f0 < f1 := hsort.1 f1 (by simp)
      rw [if_neg (by rw [← hf0]; exact ne_of_gt hlt)]

lemma fnaDS_bump (freq : List ℚ) (delta_f low : ℚ)
    (hhead : freq.headI ≠ low)
    (hi : freq[searchsorted freq (fnaFlow delta_f low)]? = some low) :
    fnaDS freq delta_f low = .ok (searchsorted freq (fnaFlow delta_f low)) := by
  unfold fnaDS fnaDS0
  rw [if_neg hhead]
  have hp : pyGet freq ((searchsorted freq (fnaFlow delta_f low) : ℤ) - 1 + 1) =
      some low := by
    unfold pyGet
    rw [if_pos (by omega)]
    have ht : ((searchsorted freq (fnaFlow delta_f low) : ℤ) - 1 + 1).toNat =
        searchsorted freq (fnaFlow delta_f low) := by omega
    rw [ht, hi]
  rw [hp]
  dsimp only
  rw [if_pos rfl]
  congr 1
  omega

lemma fnaDS_noBump (freq : List ℚ) (delta_f low : ℚ)
    (hhead : freq.headI ≠ low) (x : ℚ)
    (hx : freq[searchsorted freq (fnaFlow delta_f low)]? = some x) (hxne : x ≠ low) :
    fnaDS freq delta_f low = .ok ((searchsorted freq (fnaFlow delta_f low) : ℤ) - 1) := by
  unfold fnaDS fnaDS0
  rw [if_neg hhead]
  have hp : pyGet freq ((searchsorted freq (fnaFlow delta_f low) : ℤ) - 1 + 1) =
      some x := by
    unfold pyGet
    rw [if_pos (by omega)]
    have ht : ((searchsorted freq (fnaFlow delta_f low) : ℤ) - 1 + 1).toNat =
        searchsorted freq (fnaFlow delta_f low) := by omega
    rw [ht, hx]
  rw [hp]
  dsimp only
  rw [if_neg hxne]

lemma fnaDS_index_error (freq : List ℚ) (delta_f low : ℚ)
    (hhead : freq.headI ≠ low)
    (hge : freq.length ≤ searchsorted freq (fnaFlow delta_f low)) :
    fnaDS freq delta_f low = .error .indexError := by
  unfold fnaDS fnaDS0
  rw [if_neg hhead]
  have hp : pyGet freq ((searchsorted freq (fnaFlow delta_f low) : ℤ) - 1 + 1) = none := by
    unfold pyGet
    rw [if_pos (by omega)]
    exact List.getElem?_eq_none (by omega)
  rw [hp]

lemma fnaRetainedPair_of_ds (freq noise : List ℚ) (delta_f low : ℚ) (ds : ℤ)
    (h : fnaDS freq delta_f low = .ok ds) :
    fnaRetainedPair freq noise delta_f low =
      .ok (freq.drop (pyDropCount freq.length ds),
           noise.drop (pyDropCount noise.length ds)) := by
  unfold fnaRetainedPair
  rw [h]
  rfl

lemma pyDropCount_ofNat (n i : ℕ) : pyDropCount n (i : ℤ) = i := by
  unfold pyDropCount
  rw [if_pos (by omega)]
  omega

lemma pyDropCount_sub_one (n i : ℕ) (h : 1 ≤ i) : pyDropCount n ((i : ℤ) - 1) = i - 1 := by
  unfold pyDropCount
  rw [if_pos (by omega)]
  omega

lemma pyDropCount_neg_one (n : ℕ) : pyDropCount n (-1) = n - 1 := by
  unfold pyDropCount
  rw [if_neg (by omega)]
  omega

lemma headI_getElem?_zero (l : List ℚ) (hne : l ≠ []) : l[0]? = some l.headI := by
  cases l with
  | nil => exact absurd rfl hne
  | cons a t => simp [List.headI]

/-- C2 (amended): for a valid input the trim of lines 57-68 behaves as
follows, with `i` the left insertion point of `flow` in `freq_data`.  If
`freq_data[0] = low_freq_cutoff` nothing is dropped (the data starts at
the cutoff).  If the element at position `i` is exactly the cutoff, the
data starts there.  Otherwise, when `1 ≤ i`, the data starts at position
`i - 1`, the last element strictly below `flow`.  But when `i = 0` with
`freq_data[0] ≠ low_freq_cutoff` (possible whenever
`flow ≤ freq_data[0] < low_freq_cutoff`), the computed Python index is
`-1` and the retained data degenerates to the single last element —
not a start "at or just before `flow`", and not at the cutoff even if the
cutoff is present in `freq_data`. -/
theorem trim_start_characterization (freq noise : List ℚ) (delta_f low : ℚ)
    (hsort : freq.Pairwise (· < ·))
    (hne : freq ≠ [])
    (hdf : 0 < delta_f) (hlow : 0 ≤ low)
    (hf0 : freq.headI ≤ low)
    (hcov : fnaFlow delta_f low ≤ freq.getLastD 0) :
    (freq.headI = low → 2 ≤ freq.length →
      fnaRetainedPair freq noise delta_f low = .ok (freq, noise)) ∧
    (freq.headI ≠ low →
      freq[searchsorted freq (fnaFlow delta_f low)]? = some low →
      fnaRetainedPair freq noise delta_f low =
          .ok (freq.drop (searchsorted freq (fnaFlow delta_f low)),
               noise.drop (searchsorted freq (fnaFlow delta_f low))) ∧
        (freq.drop (searchsorted freq (fnaFlow delta_f low))).head? = some low) ∧
    (freq.headI ≠ low → 1 ≤ searchsorted freq (fnaFlow delta_f low) →
      (∀ x, freq[searchsorted freq (fnaFlow delta_f low)]? = some x → x ≠ low) →
      fnaRetainedPair freq noise delta_f low =
          .ok (freq.drop (searchsorted freq (fnaFlow delta_f low) - 1),
               noise.drop (searchsorted freq (fnaFlow delta_f low) - 1)) ∧
        ∀ h ∈ (freq.drop (searchsorted freq (fnaFlow delta_f low) - 1)).head?,
          h < fnaFlow delta_f low) ∧
    (freq.headI ≠ low → searchsorted freq (fnaFlow delta_f low) = 0 →
      fnaRetainedPair freq noise delta_f low =
        .ok (freq.drop (freq.length - 1), noise.drop (noise.length - 1))) := by
  refine ⟨?_, ?_, ?_, ?_⟩
  · intro hhead h2
    have hds := fnaDS_head_eq freq delta_f low hsort h2 hhead
    rw [fnaRetainedPair_of_ds freq noise delta_f low 0 hds]
    have h0 : (0 : ℤ) = ((0 : ℕ) : ℤ) := rfl
    rw [h0, pyDropCount_ofNat, pyDropCount_ofNat]
    simp
  · intro hhead hi
    have hds := fnaDS_bump freq delta_f low hhead hi
    rw [fnaRetainedPair_of_ds freq noise delta_f low _ hds]
    rw [pyDropCount_ofNat, pyDropCount_ofNat]
    refine ⟨rfl, ?_⟩
    rw [List.head?_drop]
    exact hi
  · intro hhead h1 hx
    have hilt := searchsorted_lt_length freq (fnaFlow delta_f low) hsort hne hcov
    have hsome : freq[searchsorted freq (fnaFlow delta_f low)]? =
        some (freq.get ⟨searchsorted freq (fnaFlow delta_f low), hilt⟩) := by
      rw [List.getElem?_eq_getElem hilt]
      rfl
    have hds := fnaDS_noBump freq delta_f low hhead _ hsome (hx _ hsome)
    rw [fnaRetainedPair_of_ds freq noise delta_f low _ hds]
    rw [pyDropCount_sub_one _ _ h1, pyDropCount_sub_one _ _ h1]
    refine ⟨rfl, ?_⟩
    intro h hh
    rw [List.head?_drop] at hh
    exact searchsorted_lt freq (fnaFlow delta_f low) hsort
      (searchsorted freq (fnaFlow delta_f low) - 1) h (by omega) hh
  · intro hhead hz
    have hsome := headI_getElem?_zero freq hne
    have hds := fnaDS_noBump freq delta_f low hhead freq.headI (by rw [hz]; exact hsome) hhead
    rw [fnaRetainedPair_of_ds freq noise delta_f low _ hds]
    rw [hz]
    have hm1 : ((0 : ℕ) : ℤ) - 1 = -1 := rfl
    rw [hm1, pyDropCount_neg_one, pyDropCount_neg_one]

lemma toNatOfNatLit (n : ℕ) [h : n.AtLeastTwo] :
    Int.toNat (no_index (OfNat.ofNat n)) = OfNat.ofNat n := rfl

lemma fna_ok_of_retained (lg ex : ℚ → ℚ) (freq noise : List ℚ) (length : ℕ)
    (delta_f low f0 : ℚ) (hf : freq.head? = some f0) (hf0 : f0 ≤ low)
    (fr no : List ℚ) (hret : fnaRetainedPair freq noise delta_f low = .ok (fr, no))
    (h2 : 2 ≤ fr.length) (hlen : fr.length = no.length) :
    from_numpy_arrays lg ex freq noise length delta_f low =
      .ok ⟨delta_f,
        fnaPsd lg ex fr no
          (if fr.getLastD 0 < ((length : ℚ) - 1) * delta_f
           then (pyInt (fr.getLastD 0 / delta_f + 1)).toNat else length)
          delta_f low⟩ := by
  have hfrne : fr ≠ [] := by
    intro h
    rw [h] at h2
    simp at h2
  have hlast : fr.getLast? = some (fr.getLastD 0) := by
    obtain ⟨x, hx⟩ := Option.isSome_iff_exists.mp ((@List.getLast?_isSome ℚ fr).mpr hfrne)
    rw [hx, List.getLastD_eq_getLast?, hx]
    rfl
  unfold from_numpy_arrays
  rw [hf]
  dsimp only
  rw [if_neg (not_lt.mpr hf0), hret]
  dsimp only
  rw [hlast]
  dsimp only
  rw [if_neg (by push_neg; exact ⟨h2, hlen⟩ :
    ¬(fr.length < 2 ∨ fr.length ≠ no.length))]

lemma fnaPsd_length (lg ex : ℚ → ℚ) (fr no : List ℚ) (L : ℕ) (delta_f low : ℚ) :
    (fnaPsd lg ex fr no L delta_f low).length = L := by
  unfold fnaPsd listSetFrom
  simp only [List.length_append, List.length_take, List.length_replicate, List.length_map,
    List.length_range', List.length_drop]
  omega

lemma fnaPsd_get_lt_kmin (lg ex : ℚ → ℚ) (fr no : List ℚ) (L : ℕ) (delta_f low : ℚ)
    (k : ℕ) (hk : k < fnaKmin delta_f low) :
    ∀ v, (fnaPsd lg ex fr no L delta_f low)[k]? = some v → v = 0 := by
  intro v hv
  by_cases hkL : k < L
  · unfold fnaPsd listSetFrom at hv
    have hklen : k < (List.take (fnaKmin delta_f low) (List.replicate L (0 : ℚ))).length := by
      simp only [List.length_take, List.length_replicate]
      omega
    rw [List.getElem?_append_left hklen] at hv
    rw [List.getElem?_take] at hv
    rw [if_pos hk] at hv
    simp only [List.getElem?_replicate, if_pos hkL] at hv
    exact (Option.some_inj.mp hv).symm
  · rw [List.getElem?_eq_none (by rw [fnaPsd_length]; omega)] at hv
    exact absurd hv (by simp)

lemma fnaPsd_get_ge (lg ex : ℚ → ℚ) (fr no : List ℚ) (L : ℕ) (delta_f low : ℚ)
    (k : ℕ) (hk : fnaKmin delta_f low ≤ k) (hkL : k < L) :
    (fnaPsd lg ex fr no L delta_f low)[k]? =
      some (ex (interp1d (fr.map lg) (no.map lg) (lg ((k : ℚ) * delta_f)))) := by
  unfold fnaPsd listSetFrom
  have htl : (List.take (fnaKmin delta_f low) (List.replicate L (0 : ℚ))).length =
      fnaKmin delta_f low := by
    simp only [List.length_take, List.length_replicate]
    omega
  rw [List.getElem?_append_right (by rw [htl]; exact hk)]
  rw [htl]
  have hvl : ((List.range' (fnaKmin delta_f low) (L - fnaKmin delta_f low)).map
      (fun m : ℕ => ex (interp1d (fr.map lg) (no.map lg) (lg ((m : ℚ) * delta_f))))).length =
      L - fnaKmin delta_f low := by
    simp only [List.length_map, List.length_range']
  rw [List.getElem?_append_left (by rw [hvl]; omega)]
  rw [List.getElem?_map]
  rw [List.getElem?_range' _ _ (by omega : k - fnaKmin delta_f low < L - fnaKmin delta_f low)]
  rw [(by omega : fnaKmin delta_f low + 1 * (k - fnaKmin delta_f low) = k)]
  rfl

lemma fnaRetainedPair_error_kind (freq noise : List ℚ) (delta_f low : ℚ) (e : FNAErr)
    (h : fnaRetainedPair freq noise delta_f low = .error e) : e = .indexError := by
  unfold fnaRetainedPair fnaDS at h
  cases hp : pyGet freq (fnaDS0 freq delta_f low + 1) with
  | none =>
    rw [hp] at h
    simp only [Except.map] at h
    exact (Except.error.inj h).symm
  | some x =>
    rw [hp] at h
    simp only [Except.map] at h
    exact absurd h (by simp)

lemma fna_ne_lowfreq (lg ex : ℚ → ℚ) (freq noise : List ℚ) (length : ℕ)
    (delta_f low f0 : ℚ) (hf : freq.head? = some f0) (hnlt : ¬low < f0) :
    from_numpy_arrays lg ex freq noise length delta_f low ≠ .error .lowFreqError := by
  unfold from_numpy_arrays
  rw [hf]
  dsimp only
  rw [if_neg hnlt]
  cases hr : fnaRetainedPair freq noise delta_f low with
  | error e =>
    have he := fnaRetainedPair_error_kind freq noise delta_f low e hr
    subst he
    simp
  | ok p =>
    obtain ⟨fr, no⟩ := p
    dsimp only
    cases hl : fr.getLast? with
    | none => simp
    | some fmax =>
      dsimp only
      split <;> simp

lemma fna_ok_inv (lg ex : ℚ → ℚ) (freq noise : List ℚ) (length : ℕ)
    (delta_f low : ℚ) (out : FNAOut)
    (hres : from_numpy_arrays lg ex freq noise length delta_f low = .ok out) :
    ∃ fr no, fnaRetainedPair freq noise delta_f low = .ok (fr, no) ∧
      2 ≤ fr.length ∧ fr.length = no.length ∧
      out = ⟨delta_f, fnaPsd lg ex fr no
        (if fr.getLastD 0 < ((length : ℚ) - 1) * delta_f
         then (pyInt (fr.getLastD 0 / delta_f + 1)).toNat else length) delta_f low⟩ := by
  unfold from_numpy_arrays at hres
  split at hres
  · exact absurd hres (by simp)
  · split at hres
    · exact absurd hres (by simp)
    · split at hres
      · exact absurd hres (by simp)
      · rename_i f0 hf fr no hret
        dsimp only at hres
        split at hres
        · exact absurd hres (by simp)
        · rename_i fmax hlast
          split at hres
          · exact absurd hres (by simp)
          · rename_i hcheck
            push_neg at hcheck
            refine ⟨fr, no, hret, hcheck.1, hcheck.2, ?_⟩
            have hfd : fr.getLastD 0 = fmax := by
              rw [List.getLastD_eq_getLast?, hlast]
              rfl
            rw [hfd]
            exact (Except.ok.inj hres).symm

/-- C4: whenever `from_numpy_arrays` returns a series, that series has
spacing `delta_f` and every existing bin with index strictly below
`kmin = floor(low_freq_cutoff / delta_f)` is exactly zero (the buffer is
created as zeros and only `psd[kmin:]` is assigned). -/
theorem bins_below_kmin_zero (lg ex : ℚ → ℚ) (freq noise : List ℚ) (length : ℕ)
    (delta_f low : ℚ) (hdf : 0 < delta_f) (hlow : 0 ≤ low) (out : FNAOut)
    (hres : from_numpy_arrays lg ex freq noise length delta_f low = .ok out) :
    out.delta_f = delta_f ∧
      ∀ k, k < (⌊low / delta_f⌋).toNat → ∀ v, out.data[k]? = some v → v = 0 := by
  have hkm : fnaKmin delta_f low = (⌊low / delta_f⌋).toNat := by
    unfold fnaKmin pyInt
    rw [if_pos (div_nonneg hlow hdf.le)]
  obtain ⟨fr, no, hret, h2, hlen, hout⟩ :=
    fna_ok_inv lg ex freq noise length delta_f low out hres
  subst hout
  refine ⟨rfl, ?_⟩
  intro k hk v hv
  rw [← hkm] at hk
  exact fnaPsd_get_lt_kmin lg ex fr no _ delta_f low k hk v hv

/-- Witness for C4 at `freq = [1, 2, 3]`, `noise = [1, 1, 1]`,
`length = 3`, `delta_f = 1`, `low_freq_cutoff = 2` (so `kmin = 2` and the
result is `[0, 0, 1]`). -/
theorem bins_below_kmin_zero_witness :
    (FNAOut.mk 1 [0, 0, 1]).delta_f = 1 ∧
      ∀ k, k < (⌊(2 : ℚ) / 1⌋).toNat → ∀ v, (FNAOut.mk 1 [0, 0, 1]).data[k]? = some v →
        v = 0 := by
  apply bins_below_kmin_zero id id [1, 2, 3] [1, 1, 1] 3 1 2 (by norm_num) (by norm_num)
  unfold from_numpy_arrays fnaRetainedPair fnaDS fnaDS0 fnaFlow fnaKmin pyInt searchsorted
  norm_num [List.countP_cons, List.countP_nil]
  norm_num [pyGet, pyDropCount, Except.map, Int.toNat_zero, Int.toNat_one, List.drop_zero,
    fnaPsd, listSetFrom, fnaKmin, pyInt, List.range', interp1d, interpPts, toNatOfNatLit,
    List.zip_cons_cons, List.take_succ_cons, List.replicate_succ]

/-- Counterexample for C5: `freq_data = [1, 2]`, `noise_data = [1, 1]`,
`length = 1`, `delta_f = 1`, `low_freq_cutoff = 10` is a valid input with
`freq_data[0] = 1 ≤ 10`, yet the call raises: the trim step reads
`freq_data[searchsorted([1, 2], 10)] = freq_data[2]`, an `IndexError`. -/
theorem no_error_cex :
    List.Pairwise (· < ·) ([1, 2] : List ℚ) ∧ (∀ x ∈ ([1, 1] : List ℚ), 0 < x) ∧
    (1 : ℚ) ≤ 10 ∧ (0 : ℚ) < 1 ∧ (1 : ℕ) ≤ 1 ∧
    from_numpy_arrays id id [1, 2] [1, 1] 1 1 10 = .error .indexError := by
  refine ⟨by norm_num [List.pairwise_cons], by norm_num, by norm_num, by norm_num,
    le_refl 1, ?_⟩
  unfold from_numpy_arrays fnaRetainedPair fnaDS fnaDS0 fnaFlow fnaKmin pyInt searchsorted
  norm_num [List.countP_cons, List.countP_nil]
  norm_num [pyGet, toNatOfNatLit, Except.map]

/-- C5 (amended): the cannot-extrapolate `ValueError` is raised exactly
when `freq_data[0] > low_freq_cutoff`; but for `freq_data[0] ≤` the cutoff
the call is only error-free when the trim step itself succeeds and retains
two equal-length arrays of at least two points — otherwise an
`IndexError` (or the interpolator's own `ValueError`) is still possible,
as the counterexample shows. -/
theorem lowfreq_error_iff_amended (lg ex : ℚ → ℚ) (freq noise : List ℚ) (length : ℕ)
    (delta_f low f0 : ℚ) (hf : freq.head? = some f0) :
    (from_numpy_arrays lg ex freq noise length delta_f low = .error .lowFreqError ↔
      low < f0) ∧
    (∀ fr no, f0 ≤ low → fnaRetainedPair freq noise delta_f low = .ok (fr, no) →
      2 ≤ fr.length → fr.length = no.length →
      ∃ out, from_numpy_arrays lg ex freq noise length delta_f low = .ok out) := by
  constructor
  · constructor
    · intro hres
      by_contra hnot
      exact fna_ne_lowfreq lg ex freq noise length delta_f low f0 hf hnot hres
    · intro hlt
      unfold from_numpy_arrays
      rw [hf]
      dsimp only
      rw [if_pos hlt]
  · intro fr no hf0 hret h2 hlen
    exact ⟨_, fna_ok_of_retained lg ex freq noise length delta_f low f0 hf hf0
      fr no hret h2 hlen⟩

/-- Witness for C5 (amended) at `freq = [1, 2, 3]`, cutoff `2`. -/
theorem lowfreq_error_iff_amended_witness :
    (from_numpy_arrays id id [1, 2, 3] [1, 1, 1] 3 1 2 = .error .lowFreqError ↔
      (2 : ℚ) < 1) ∧
    (∀ fr no, (1 : ℚ) ≤ 2 → fnaRetainedPair [1, 2, 3] [1, 1, 1] 1 2 = .ok (fr, no) →
      2 ≤ fr.length → fr.length = no.length →
      ∃ out, from_numpy_arrays id id [1, 2, 3] [1, 1, 1] 3 1 2 = .ok out) :=
  lowfreq_error_iff_amended id id [1, 2, 3] [1, 1, 1] 3 1 2 1 rfl

/-- Counterexample for C3: `freq_data = [1, 2]`, `noise_data = [1, 1]`,
`length = 100`, `delta_f = 1`, `low_freq_cutoff = 10` is a valid input
whose requested highest frequency `99` exceeds the maximum input frequency
`2`, yet the call raises an `IndexError` in the trim step instead of
warning and shrinking. -/
theorem length_shrink_cex :
    List.Pairwise (· < ·) ([1, 2] : List ℚ) ∧ (1 : ℚ) ≤ 10 ∧ (0 : ℚ) < 1 ∧
    (2 : ℚ) < (((100 : ℕ) : ℚ) - 1) * 1 ∧
    from_numpy_arrays id id [1, 2] [1, 1] 100 1 10 = .error .indexError := by
  refine ⟨by norm_num [List.pairwise_cons], by norm_num, by norm_num, by norm_num, ?_⟩
  unfold from_numpy_arrays fnaRetainedPair fnaDS fnaDS0 fnaFlow fnaKmin pyInt searchsorted
  norm_num [List.countP_cons, List.countP_nil]
  norm_num [pyGet, toNatOfNatLit, Except.map]

/-- C3 (amended): provided the trim step succeeds with at least two
equal-length retained points, a requested highest frequency beyond the
maximum retained frequency shrinks the output to
`floor(max_freq / delta_f) + 1` bins (with a warning), and otherwise the
output has exactly `length` bins; without trim success the call can raise
instead, as the counterexample shows. -/
theorem length_shrink_amended (lg ex : ℚ → ℚ) (freq noise : List ℚ) (length : ℕ)
    (delta_f low f0 : ℚ) (hf : freq.head? = some f0) (hf0 : f0 ≤ low)
    (fr no : List ℚ) (hret : fnaRetainedPair freq noise delta_f low = .ok (fr, no))
    (h2 : 2 ≤ fr.length) (hlen : fr.length = no.length)
    (hdf : 0 < delta_f) (hfmax : 0 ≤ fr.getLastD 0) :
    (fr.getLastD 0 < ((length : ℚ) - 1) * delta_f →
      ∃ out, from_numpy_arrays lg ex freq noise length delta_f low = .ok out ∧
        out.data.length = (⌊fr.getLastD 0 / delta_f⌋).toNat + 1) ∧
    (((length : ℚ) - 1) * delta_f ≤ fr.getLastD 0 →
      ∃ out, from_numpy_arrays lg ex freq noise length delta_f low = .ok out ∧
        out.data.length = length) := by
  have hok := fna_ok_of_retained lg ex freq noise length delta_f low f0 hf hf0
    fr no hret h2 hlen
  constructor
  · intro hex
    refine ⟨_, hok, ?_⟩
    dsimp only
    rw [fnaPsd_length]
    rw [if_pos hex]
    unfold pyInt
    rw [if_pos (by positivity)]
    rw [(by push_cast; ring : fr.getLastD 0 / delta_f + 1 =
      fr.getLastD 0 / delta_f + ((1 : ℤ) : ℚ))]
    rw [Int.floor_add_int]
    have hnn : 0 ≤ ⌊fr.getLastD 0 / delta_f⌋ :=
      Int.floor_nonneg.mpr (div_nonneg hfmax hdf.le)
    omega
  · intro hnex
    refine ⟨_, hok, ?_⟩
    dsimp only
    rw [fnaPsd_length]
    rw [if_neg (not_lt.mpr hnex)]

/-- Witness for C3 (amended): `freq = [1, 2, 3]`, `length = 100`,
`delta_f = 1`, cutoff `1`; the output shrinks to `floor(3/1) + 1 = 4`
bins. -/
theorem length_shrink_amended_witness :
    ∃ out, from_numpy_arrays id id [1, 2, 3] [1, 1, 1] 100 1 1 = .ok out ∧
      out.data.length = (⌊([1, 2, 3] : List ℚ).getLastD 0 / 1⌋).toNat + 1 := by
  have h := (length_shrink_amended id id [1, 2, 3] [1, 1, 1] 100 1 1 1 rfl (by norm_num)
    [1, 2, 3] [1, 1, 1] ?hret (by norm_num) (by norm_num) (by norm_num)
    (by norm_num [List.getLastD])).1 (by norm_num [List.getLastD])
  · exact h
  case hret =>
    unfold fnaRetainedPair fnaDS fnaDS0 fnaFlow fnaKmin pyInt searchsorted
    norm_num [List.countP_cons, List.countP_nil]
    norm_num [pyGet, pyDropCount, toNatOfNatLit, Except.map, Int.toNat_zero,
      Int.toNat_one, List.drop_zero]

/-- Counterexample for C2: on the valid input `freq_data = [1, 9/2, 5]`,
`delta_f = 2`, `low_freq_cutoff = 5` (so `flow = 4`), the cutoff `5` is
present in `freq_data`, yet the retained data starts at `1`, not at the
cutoff: the code only checks the single element at the insertion point of
`flow`, which here is `9/2`. -/
theorem trim_cutoff_start_cex :
    List.Pairwise (· < ·) ([1, 9/2, 5] : List ℚ) ∧
    (1 : ℚ) ≤ 5 ∧ (0 : ℚ) < 2 ∧ (5 : ℚ) ∈ ([1, 9/2, 5] : List ℚ) ∧
    fnaRetainedPair [1, 9/2, 5] [1, 1, 1] 2 5 = .ok ([1, 9/2, 5], [1, 1, 1]) ∧
    ([1, 9/2, 5] : List ℚ).head? = some 1 ∧ (1 : ℚ) ≠ 5 := by
  refine ⟨by norm_num [List.pairwise_cons], by norm_num, by norm_num, by norm_num, ?_,
    rfl, by norm_num⟩
  unfold fnaRetainedPair fnaDS fnaDS0 fnaFlow fnaKmin pyInt searchsorted
  norm_num [List.countP_cons, List.countP_nil]
  simp only [toNatOfNatLit]
  norm_num [pyGet, pyDropCount, Except.map, Int.toNat_zero, List.drop_zero]

/-- Witness for C2 (amended), cutoff-at-insertion-point case: on
`freq_data = [1, 2, 5]`, `delta_f = 2`, cutoff `5` (`flow = 4`,
insertion point `2`), the retained data starts exactly at the cutoff. -/
theorem trim_start_characterization_witness :
    fnaRetainedPair [1, 2, 5] [1, 1, 1] 2 5 = .ok ([5], [1]) := by
  have hss : searchsorted [1, 2, 5] (fnaFlow 2 5) = 2 := by
    unfold searchsorted fnaFlow fnaKmin pyInt
    norm_num [List.countP_cons, List.countP_nil]
    simp only [toNatOfNatLit]
    norm_num
  have h := (trim_start_characterization [1, 2, 5] [1, 1, 1] 2 5
      (by norm_num [List.pairwise_cons]) (by simp) (by norm_num) (by norm_num)
      (by norm_num [List.headI])
      (by
        rw [(by
          unfold fnaFlow fnaKmin pyInt
          norm_num
          simp only [toNatOfNatLit]
          norm_num : fnaFlow 2 5 = 4)]
        norm_num [List.getLastD])).2.1
      (by norm_num [List.headI])
      (by rw [hss]; norm_num)
  rw [hss] at h
  exact h.1

lemma interpPts_node (pts : List (ℚ × ℚ)) (hp : pts.Pairwise (fun p q => p.1 < q.1)) :
    ∀ (j : ℕ) (x y : ℚ), pts[j]? = some (x, y) → interpPts pts x = y := by
  induction pts with
  | nil =>
    intro j x y hj
    simp at hj
  | cons p t ih =>
    rw [List.pairwise_cons] at hp
    intro j x y hj
    cases t with
    | nil =>
      cases j with
      | zero =>
        rw [List.getElem?_cons_zero] at hj
        have hpe : p = (x, y) := Option.some_inj.mp hj
        subst hpe
        rfl
      | succ j =>
        rw [List.getElem?_cons_succ] at hj
        simp at hj
    | cons q t2 =>
      cases j with
      | zero =>
        rw [List.getElem?_cons_zero] at hj
        have hpe : p = (x, y) := Option.some_inj.mp hj
        subst hpe
        have hxq : x < q.1 := hp.1 q (by simp)
        show interpPts ((x, y) :: q :: t2) x = y
        simp only [interpPts]
        rw [if_pos (le_of_lt hxq)]
        rw [sub_self, mul_zero, zero_div, add_zero]
      | succ j =>
        rw [List.getElem?_cons_succ] at hj
        cases j with
        | zero =>
          rw [List.getElem?_cons_zero] at hj
          have hqe : q = (x, y) := Option.some_inj.mp hj
          subst hqe
          have hlt : p.1 < x := hp.1 (x, y) (by simp)
          show interpPts (p :: (x, y) :: t2) x = y
          simp only [interpPts]
          rw [if_pos (le_refl x)]
          rw [mul_div_assoc, div_self (by exact sub_ne_zero.mpr (ne_of_gt hlt)), mul_one]
          ring
        | succ j =>
          rw [List.getElem?_cons_succ] at hj
          have hmem : (x, y) ∈ t2 := by
            rcases List.getElem?_eq_some.mp hj with ⟨hlt2, hget⟩
            exact hget ▸ List.getElem_mem hlt2
          have hq2 : q.1 < x := (List.pairwise_cons.mp hp.2).1 (x, y) hmem
          show interpPts (p :: q :: t2) x = y
          simp only [interpPts]
          rw [if_neg (not_le.mpr hq2)]
          exact ih hp.2 (j + 1) x y (by rw [List.getElem?_cons_succ]; exact hj)

lemma pairwiseFstZip (xs ys : List ℚ) (h : xs.Pairwise (· < ·)) :
    (xs.zip ys).Pairwise (fun p q => p.1 < q.1) := by
  induction xs generalizing ys with
  | nil => simp
  | cons a t ih =>
    cases ys with
    | nil => simp
    | cons b u =>
      rw [List.pairwise_cons] at h
      rw [List.zip_cons_cons, List.pairwise_cons]
      constructor
      · intro pq hpq
        exact h.1 pq.1 (List.of_mem_zip hpq).1
      · exact ih u h.2

lemma zipGetElem (xs ys : List ℚ) : ∀ (j : ℕ) (x y : ℚ),
    xs[j]? = some x → ys[j]? = some y → (xs.zip ys)[j]? = some (x, y) := by
  induction xs generalizing ys with
  | nil =>
    intro j x y hx _
    simp at hx
  | cons a t ih =>
    intro j x y hx hy
    cases ys with
    | nil => simp at hy
    | cons b u =>
      cases j with
      | zero =>
        rw [List.getElem?_cons_zero] at hx hy
        rw [List.zip_cons_cons, List.getElem?_cons_zero, Option.some_inj.mp hx,
          Option.some_inj.mp hy]
      | succ j =>
        rw [List.getElem?_cons_succ] at hx hy
        rw [List.zip_cons_cons, List.getElem?_cons_succ]
        exact ih u j x y hx hy

lemma interp1d_node (xs ys : List ℚ) (hx : xs.Pairwise (· < ·)) (j : ℕ) (x y : ℚ)
    (hxj : xs[j]? = some x) (hyj : ys[j]? = some y) : interp1d xs ys x = y := by
  cases xs with
  | nil => simp at hxj
  | cons x0 xt =>
    cases ys with
    | nil => simp at hyj
    | cons y0 yt =>
      have hnotlt : ¬x < x0 := by
        cases j with
        | zero =>
          rw [List.getElem?_cons_zero] at hxj
          rw [← Option.some_inj.mp hxj]
          exact lt_irrefl x0
        | succ j =>
          have hmem : x ∈ xt := by
            rw [List.getElem?_cons_succ] at hxj
            rcases List.getElem?_eq_some.mp hxj with ⟨hlt2, hget⟩
            exact hget ▸ List.getElem_mem hlt2
          exact not_lt.mpr (le_of_lt ((List.pairwise_cons.mp hx).1 x hmem))
      show interp1d (x0 :: xt) (y0 :: yt) x = y
      simp only [interp1d]
      rw [if_neg hnotlt]
      exact interpPts_node _ (pairwiseFstZip _ _ hx) j x y
        (zipGetElem (x0 :: xt) (y0 :: yt) j x y hxj hyj)

/-- C9: at any output bin at or above `kmin` whose frequency
`k * delta_f` coincides with a retained input node, the returned PSD
reproduces the input noise value at that node exactly: the log-log
piecewise-linear interpolation evaluated at a node returns the node's
value, and `exp` undoes `log`.  Stated for any strictly monotone `lg` on
the positives with left inverse `ex`, which covers `numpy.log`/`exp`. -/
theorem resample_idempotent_nodes (lg ex : ℚ → ℚ) (freq noise : List ℚ) (length : ℕ)
    (delta_f low : ℚ) (out : FNAOut) (fr no : List ℚ)
    (hlg : ∀ a b : ℚ, 0 < a → a < b → lg a < lg b)
    (hex : ∀ x : ℚ, 0 < x → ex (lg x) = x)
    (hres : from_numpy_arrays lg ex freq noise length delta_f low = .ok out)
    (hret : fnaRetainedPair freq noise delta_f low = .ok (fr, no))
    (hfrpos : ∀ x ∈ fr, 0 < x)
    (hnopos : ∀ x ∈ no, 0 < x)
    (hsort : fr.Pairwise (· < ·))
    (k j : ℕ) (hk : fnaKmin delta_f low ≤ k) (hkL : k < out.data.length)
    (hnode : fr[j]? = some ((k : ℚ) * delta_f)) :
    out.data[k]? = no[j]? := by
  obtain ⟨fr2, no2, hret2, h2, hlen, hout⟩ :=
    fna_ok_inv lg ex freq noise length delta_f low out hres
  rw [hret] at hret2
  simp only [Except.ok.injEq, Prod.mk.injEq] at hret2
  obtain ⟨hfr2, hno2⟩ := hret2
  subst hfr2
  subst hno2
  subst hout
  rw [fnaPsd_length] at hkL
  rw [fnaPsd_get_ge lg ex fr no _ delta_f low k hk hkL]
  have hj : j < fr.length := by
    rcases List.getElem?_eq_some.mp hnode with ⟨hlt, _⟩
    exact hlt
  have hmapx : (fr.map lg)[j]? = some (lg ((k : ℚ) * delta_f)) := by
    rw [List.getElem?_map, hnode]
    rfl
  obtain ⟨nv, hnv⟩ : ∃ nv, no[j]? = some nv :=
    ⟨_, List.getElem?_eq_getElem (by omega : j < no.length)⟩
  have hmapy : (no.map lg)[j]? = some (lg nv) := by
    rw [List.getElem?_map, hnv]
    rfl
  have hmono : (fr.map lg).Pairwise (· < ·) := by
    rw [List.pairwise_map]
    exact hsort.imp_of_mem (fun ha hb hab => hlg _ _ (hfrpos _ ha) hab)
  rw [interp1d_node (fr.map lg) (no.map lg) hmono j _ _ hmapx hmapy]
  have hnvmem : nv ∈ no := by
    rcases List.getElem?_eq_some.mp hnv with ⟨hlt2, hget⟩
    exact hget ▸ List.getElem_mem hlt2
  rw [hex nv (hnopos nv hnvmem), hnv]

/-- Witness for C9: `freq = [1, 2, 3]`, `noise = [2, 3, 4]`,
`delta_f = 1`, cutoff `1`, `lg = ex = id`; output bin `2` (frequency `2`)
reproduces the noise value `3` at node index `1`. -/
theorem resample_idempotent_nodes_witness :
    (FNAOut.mk 1 [0, 2, 3]).data[2]? = ([2, 3, 4] : List ℚ)[1]? := by
  apply resample_idempotent_nodes id id [1, 2, 3] [2, 3, 4] 3 1 1
      (FNAOut.mk 1 [0, 2, 3]) [1, 2, 3] [2, 3, 4]
      (fun a b _ hab => hab) (fun x _ => rfl) ?hres ?hret
      (by norm_num) (by norm_num) (by norm_num [List.pairwise_cons]) 2 1
      ?hk (by norm_num) (by norm_num)
  case hres =>
    unfold from_numpy_arrays fnaRetainedPair fnaDS fnaDS0 fnaFlow fnaKmin pyInt searchsorted
    norm_num [List.countP_cons, List.countP_nil]
    norm_num [pyGet, pyDropCount, Except.map, Int.toNat_zero, Int.toNat_one, List.drop_zero,
      fnaPsd, listSetFrom, fnaKmin, pyInt, List.range', interp1d, interpPts, toNatOfNatLit,
      List.zip_cons_cons, List.take_succ_cons, List.replicate_succ]
  case hret =>
    unfold fnaRetainedPair fnaDS fnaDS0 fnaFlow fnaKmin pyInt searchsorted
    norm_num [List.countP_cons, List.countP_nil]
    norm_num [pyGet, pyDropCount, Except.map, Int.toNat_zero, Int.toNat_one, List.drop_zero,
      toNatOfNatLit]
  case hk =>
    unfold fnaKmin pyInt
    norm_num
